import Mathlib

/-!
# Verification of the ctags C++ variable-declaration scanner

Shallow embedding of `src/parsers/cxx/cxx_parser_variable.c`:
the Constructor-Argument Heuristic (`cxxParserTokenChainLooksLikeConstructorParameterSet`)
and the Declaration Scanner (`cxxParserExtractVariableDeclarations`).

Token chains (doubly-linked lists of `CXXToken` in the C source) are modelled as a
zipper: a reversed list `left` of the tokens before the cursor and a list `right`
with the cursor at its head, so `left.reverse ++ right` is the current chain and
`pPrev`/`pNext` become head accesses on `left`/`right`.  Collaborators that live
outside this file's source (scope stack, tag sink, chain helpers) are modelled from
the spec, as marked on each definition.
-/

/-- Token categories of the C++ parser (`CXXTokenType` bit flags in the source;
each token holds exactly one category, so a sum type is the faithful model and
the bitmask membership tests `t->eType & (A|B|...)` become match-based set
predicates). -/
inductive CXXTokenType where
  | Identifier | Keyword | Number | StringConstant | CharacterConstant
  | Operator | Star | And | MultipleAnds | PointerOperator | MultipleDots
  | MultipleColons | SingleColon | Comma | Semicolon | Assignment
  | OpeningBracket | ClosingBracket | SmallerThanSign | GreaterThanSign
  | ParenthesisChain | SquareParenthesisChain | BracketChain | AngleBracketChain
  | OpeningParenthesis | ClosingParenthesis | OpeningSquareParenthesis
  | ClosingSquareParenthesis
  deriving DecidableEq

/-- Keyword sub-kinds (`CXXKeyword` in the source); only the ones the scanner
inspects are distinguished, every other keyword is `kwOther`. -/
inductive CXXKeyword where
  | kwSTRUCT | kwUNION | kwCLASS | kwENUM | kwOther
  deriving DecidableEq

/-- A token (`CXXToken`): category, lexeme, keyword sub-kind, and the nested
sub-chain carried by the `*Chain` categories (`pChain` in the source). -/
inductive CXXToken where
  | mk (eType : CXXTokenType) (word : String) (eKeyword : CXXKeyword)
      (pChain : List CXXToken)

def CXXToken.eType : CXXToken → CXXTokenType
  | .mk e _ _ _ => e

def CXXToken.word : CXXToken → String
  | .mk _ w _ _ => w

def CXXToken.eKeyword : CXXToken → CXXKeyword
  | .mk _ _ k _ => k

def CXXToken.pChain : CXXToken → List CXXToken
  | .mk _ _ _ c => c

/-- Tag kinds (`CXXTagKind`); the subset the scanner touches. -/
inductive CXXTagKind where
  | CLASS | FUNCTION | NAMESPACE | MEMBER | VARIABLE | LOCAL | EXTERNVAR
  deriving DecidableEq

/-- Scope accessibility (`CXXScopeAccess`). -/
inductive CXXScopeAccess where
  | Unknown | Public | Protected | Private
  deriving DecidableEq

/-- One entry of the lexical scope stack: the token taken from the chain as the
scope name, the (guessed) kind, and the accessibility. -/
structure CXXScopeEntry where
  tok : CXXToken
  kind : CXXTagKind
  access : CXXScopeAccess

/-- Observable effect of the scanner on the scope stack: a `cxxScopePush` or a
`cxxScopePop`, recorded in call order. -/
inductive ScopeEvent where
  | push (e : CXXScopeEntry)
  | pop

/-- A tag handed to the tag sink (`tagEntryInfo` fields the scanner populates). -/
structure TagEntryInfo where
  name : String
  kind : CXXTagKind
  typeRef : Option (String × String)
  isFileScope : Bool
  anchor : CXXToken

/-- One committed tag together with the observable scanner state at the moment of
commit (pChain token count, number of tokens taken from the chain so far, and the
`pTypeEnd` token with the token preceding it).  The extra fields are observations
of the run used to state properties; they do not influence the computation. -/
structure EmitRec where
  tag : TagEntryInfo
  curLen : Nat
  taken : Nat
  typeEnd : CXXToken
  typeEndPrev : Option CXXToken

/-- Parser context: the ambient flags and external collaborator predicates the
scanner reads (`g_cxx.uKeywordState`, `cxxParserCurrentLanguageIsCPP`,
`isInputHeaderFile`, `cxxParserTokenChainLooksLikeFunctionParameterList`, and the
tag sink's acceptance policy behind `cxxTagBegin`). -/
structure CXXParserCtx where
  bSeenExtern : Bool
  bSeenStatic : Bool
  bIsCPP : Bool
  bIsHeader : Bool
  looksLikeFunctionParameterList : List CXXToken → Bool
  tagAccept : String → Bool

/-- Accumulated mutable state of one scanner call: scope stack, scope event log,
committed tags, the `bGotVariable` flag and the count of tokens taken from the
chain for scope pushes. -/
structure ScanAcc where
  stack : List CXXScopeEntry
  events : List ScopeEvent
  emits : List EmitRec
  gotVariable : Bool
  taken : Nat

/-- Result of one scanner call: final flag, tags, scope events, scope stack,
the final `pTypeEnd` (with the token preceding it) and total tokens taken. -/
structure ScanResult where
  gotVariable : Bool
  emits : List EmitRec
  events : List ScopeEvent
  stack : List CXXScopeEntry
  typeEnd : Option (CXXToken × Option CXXToken)
  taken : Nat

def mkScanResult (acc : ScanAcc) (te : Option (CXXToken × Option CXXToken)) :
    ScanResult :=
  ⟨acc.gotVariable, acc.emits, acc.events, acc.stack, te, acc.taken⟩

def mkEmptyScanResult (stack : List CXXScopeEntry) : ScanResult :=
  ⟨false, [], [], stack, none, 0⟩

/-- Modelled from the spec: the Scope Stack collaborator's current-kind query
(`cxxScopeGetKind`, not under `src/`).  The kind of the innermost entry; the
empty stack is file/namespace level. -/
def cxxScopeGetKind (stack : List CXXScopeEntry) : CXXTagKind :=
  match stack with
  | [] => CXXTagKind.NAMESPACE
  | e :: _ => e.kind

/-- Modelled from the spec: the Scope Stack collaborator's "context-appropriate
variable kind" (`cxxScopeGetVariableKind`, not under `src/`): locals in
functions, members in class-like scopes, plain variables elsewhere. -/
def cxxScopeGetVariableKind (stack : List CXXScopeEntry) : CXXTagKind :=
  match cxxScopeGetKind stack with
  | CXXTagKind.FUNCTION => CXXTagKind.LOCAL
  | CXXTagKind.CLASS => CXXTagKind.MEMBER
  | _ => CXXTagKind.VARIABLE

/-- Modelled from the spec: the tag sink's `begin` operation (`cxxTagBegin`, not
under `src/`): constructs a pending tag from (name, kind, anchor token) and may
return "no tag" according to the sink's acceptance policy. -/
def cxxTagBegin (ctx : CXXParserCtx) (name : String) (kind : CXXTagKind)
    (anchor : CXXToken) : Option TagEntryInfo :=
  if ctx.tagAccept name then some ⟨name, kind, none, false, anchor⟩ else none

/-- `CXXTokenTypeNumber | CXXTokenTypeStringConstant | CXXTokenTypeCharacterConstant`
(heuristic, line 42). -/
def isConstantType (e : CXXTokenType) : Bool :=
  match e with
  | .Number | .StringConstant | .CharacterConstant => true
  | _ => false

/-- `CXXTokenTypeKeyword | CXXTokenTypeStar | CXXTokenTypeAnd |
CXXTokenTypeMultipleAnds | CXXTokenTypeIdentifier` (heuristic, line 54). -/
def isKeywordFollowType (e : CXXTokenType) : Bool :=
  match e with
  | .Keyword | .Star | .And | .MultipleAnds | .Identifier => true
  | _ => false

/-- `CXXTokenTypeKeyword | CXXTokenTypeIdentifier` (heuristic, line 64). -/
def isIdentifierFollowType (e : CXXTokenType) : Bool :=
  match e with
  | .Keyword | .Identifier => true
  | _ => false

/-- `cxxParserTokenChainLooksLikeConstructorParameterSet`: guess whether a
parenthesis chain (which includes its opening and closing parenthesis tokens,
see the debug assertion at line 36) looks like a constructor-call argument
list.  Faithful to lines 27-76 of the source. -/
def cxxParserTokenChainLooksLikeConstructorParameterSet
    (pChain : List CXXToken) : Bool :=
  if pChain.length < 3 then false
  else
    match pChain with
    | _ :: t :: tn :: _ =>
      if isConstantType t.eType then true
      else if t.eType = CXXTokenType.Keyword then
        if isKeywordFollowType tn.eType then false else true
      else if t.eType = CXXTokenType.Identifier then
        if isIdentifierFollowType tn.eType then false else true
      else true
    | _ => false

/-- The "notable boundary" token set of the forward scan (lines 147-155):
`: (..) [..] = , ; {`. -/
def isNotableType (e : CXXTokenType) : Bool :=
  match e with
  | .SingleColon | .ParenthesisChain | .SquareParenthesisChain | .Assignment
  | .Comma | .Semicolon | .OpeningBracket => true
  | _ => false

/-- Token kinds that disqualify the chain when seen before a notable boundary
(lines 172-178). -/
def isForbiddenInitialType (e : CXXTokenType) : Bool :=
  match e with
  | .Operator | .MultipleAnds | .PointerOperator | .BracketChain
  | .StringConstant | .AngleBracketChain | .CharacterConstant | .MultipleDots
  | .ClosingBracket | .ClosingParenthesis | .ClosingSquareParenthesis
  | .SmallerThanSign => true
  | _ => false

/-- Token kinds accepted as the end of the leading type (line 289). -/
def isTypePartType (e : CXXTokenType) : Bool :=
  match e with
  | .Identifier | .Keyword | .GreaterThanSign | .Star | .And => true
  | _ => false

/-- `CXXTokenTypeParenthesisChain | CXXTokenTypeSquareParenthesisChain |
CXXTokenTypeSingleColon | CXXTokenTypeAssignment` (line 370). -/
def isTrailerFormType (e : CXXTokenType) : Bool :=
  match e with
  | .ParenthesisChain | .SquareParenthesisChain | .SingleColon | .Assignment =>
    true
  | _ => false

/-- `CXXTokenTypeComma | CXXTokenTypeSemicolon | CXXTokenTypeOpeningBracket`
(line 372). -/
def isCommaSemicolonBracketType (e : CXXTokenType) : Bool :=
  match e with
  | .Comma | .Semicolon | .OpeningBracket => true
  | _ => false

/-- `CXXTokenTypeSemicolon | CXXTokenTypeOpeningBracket` (line 380). -/
def isDeclEndType (e : CXXTokenType) : Bool :=
  match e with
  | .Semicolon | .OpeningBracket => true
  | _ => false

/-- Keyword sub-kinds eligible for the simple typeref (lines 343-346). -/
def isStructLikeKeyword (k : CXXKeyword) : Bool :=
  match k with
  | .kwSTRUCT | .kwUNION | .kwCLASS | .kwENUM => true
  | _ => false

/-- The forward scan of the Declaration Scanner (inner `while` loop, lines
145-186), on the zipper `(left, right)`.  `depth = 0` is ordinary scanning;
`depth > 0` means the cursor is inside an angle bracket run, which models
`cxxTokenChainSkipToEndOfAngleBracket` (not under `src/`; modelled from the
spec: a `<` triggers a skip to the matching `>`, counting nesting, and failure
to find it aborts).  Returns the zipper with the cursor on the first notable
token, or `none` on any abort of this phase (disqualifying token, unmatched
`<`, or running off the chain). -/
def scanForward : Nat → List CXXToken → List CXXToken →
    Option (List CXXToken × List CXXToken)
  | _, _, [] => none
  | depth + 1, left, t :: rest =>
    match t.eType with
    | CXXTokenType.SmallerThanSign => scanForward (depth + 2) (t :: left) rest
    | CXXTokenType.GreaterThanSign => scanForward depth (t :: left) rest
    | _ => scanForward (depth + 1) (t :: left) rest
  | 0, left, t :: rest =>
    if isNotableType t.eType then some (left, t :: rest)
    else if t.eType = CXXTokenType.SmallerThanSign then
      scanForward 1 (t :: left) rest
    else if isForbiddenInitialType t.eType then none
    else scanForward 0 (t :: left) rest

/-- Modelled from the spec: `cxxTokenChainNextTokenOfType` (not under `src/`),
search loop on the zipper: find the next token strictly after the head of
`right` whose category satisfies `pred`. -/
def findTokenOfTypeZ (pred : CXXTokenType → Bool) :
    List CXXToken → List CXXToken → Option (List CXXToken × List CXXToken)
  | _, [] => none
  | left, u :: rest =>
    if pred u.eType then some (left, u :: rest)
    else findTokenOfTypeZ pred (u :: left) rest

def cxxTokenChainNextTokenOfTypeZ (pred : CXXTokenType → Bool)
    (left : List CXXToken) :
    List CXXToken → Option (List CXXToken × List CXXToken)
  | [] => none
  | t :: rest => findTokenOfTypeZ pred (t :: left) rest

mutual
/-- Modelled from the spec: `cxxTokenChainLastPossiblyNestedTokenOfType` (not
under `src/`): the last token of the given category in the chain, descending
into nested sub-chains. -/
def lastPossiblyNestedTokenOfTypeList (ty : CXXTokenType) :
    List CXXToken → Option CXXToken
  | [] => none
  | t :: rest =>
    match lastPossiblyNestedTokenOfTypeList ty rest with
    | some r => some r
    | none => lastPossiblyNestedTokenOfTypeTok ty t

def lastPossiblyNestedTokenOfTypeTok (ty : CXXTokenType) :
    CXXToken → Option CXXToken
  | .mk e w k c =>
    if e = ty then some (.mk e w k c)
    else lastPossiblyNestedTokenOfTypeList ty c
end

/-- The namespace-qualifier unwind (lines 261-284), walking the reversed list of
tokens before the declared identifier.  Returns, on success,
`(quals, seps, tb, below)`: the qualifier identifier tokens in push order
(outermost first), the `::` separator tokens in encounter order, the pre-type
boundary token `pTokenBefore` and the reversed tokens before it.  `none` is the
abort of lines 264-283 (missing or non-identifier token before a `::`). -/
def collectScopeQualifiers :
    List CXXToken →
    Option (List CXXToken × List CXXToken × CXXToken × List CXXToken)
  | [] => none
  | tb :: rest =>
    if tb.eType = CXXTokenType.MultipleColons then
      match rest with
      | [] => none
      | q :: rest2 =>
        if q.eType = CXXTokenType.Identifier then
          match collectScopeQualifiers rest2 with
          | none => none
          | some (quals, seps, tb2, below2) =>
            some (quals ++ [q], tb :: seps, tb2, below2)
        else none
    else some ([], [], tb, rest)

/-- The data of one recognized declarator: the declared identifier token, the
scope qualifier tokens (push order), the resolved `pTypeEnd` with the token
preceding it, and the chain zipper after the qualifier tokens have been taken
out (`cxxTokenChainTake`) and after the cursor adjustment of the
function-pointer case. -/
structure DeclMatch where
  pid : CXXToken
  quals : List CXXToken
  typeEnd : CXXToken × Option CXXToken
  left : List CXXToken
  right : List CXXToken

/-- Shared tail of the backward classification: qualifier unwind (lines
257-284), type-end determination (lines 286-297) and removal of the taken
qualifier tokens from the chain.  `front` is the token that ends up at the head
of `left` at the cursor (`pIdentifier` in the plain cases, the first
parenthesis chain in the function-pointer case). -/
def finishDeclarator (te0 : Option (CXXToken × Option CXXToken))
    (pid front : CXXToken) (before right2 : List CXXToken) : Option DeclMatch :=
  match collectScopeQualifiers before with
  | none => none
  | some (quals, seps, tb, below) =>
    match te0 with
    | none =>
      if isTypePartType tb.eType then
        some ⟨pid, quals, (tb, below.head?), front :: (seps ++ tb :: below),
          right2⟩
      else none
    | some p => some ⟨pid, quals, p, front :: (seps ++ tb :: below), right2⟩

/-- Backward classification at the notable token `t` (lines 196-297): the
function-pointer special case, the constructor-style instantiation case and the
plain identifier-before-boundary case, each feeding `finishDeclarator`.
`left1` is the reversed list of tokens before `t`, `rest1` the tokens after it.
`none` is any abort of this phase (the whole call then returns the accumulated
`bGotVariable`).

The token preceding `pTypeEnd` is captured when `pTypeEnd` is resolved; this is
faithful to reading `pTypeEnd->pPrev` at emission time (line 340) because the
only chain mutation, taking qualifier tokens, removes tokens strictly after
`pTypeEnd`.  The constructor-style instantiation case (lines 220-233) is split
off as `ctorInstantiationBranch`: the token before the parenthesis chain is an
identifier, the enclosing scope is namespace or function level, the language is
C++ and the Constructor-Argument Heuristic accepts the nested chain. -/
def ctorInstantiationBranch (ctx : CXXParserCtx) (eScopeKind : CXXTagKind)
    (te0 : Option (CXXToken × Option CXXToken)) (prev t : CXXToken)
    (left1tail rest1 : List CXXToken) : Option DeclMatch :=
  if prev.eType = CXXTokenType.Identifier
      ∧ (eScopeKind = CXXTagKind.NAMESPACE
          ∨ eScopeKind = CXXTagKind.FUNCTION)
      ∧ ctx.bIsCPP = true
      ∧ cxxParserTokenChainLooksLikeConstructorParameterSet t.pChain
          = true then
    finishDeclarator te0 prev prev left1tail (t :: rest1)
  else none

def classifyAndAnchor (ctx : CXXParserCtx) (eScopeKind : CXXTagKind)
    (te0 : Option (CXXToken × Option CXXToken)) (left1 : List CXXToken)
    (t : CXXToken) (rest1 : List CXXToken) : Option DeclMatch :=
  match left1 with
  | [] => none
  | prev :: left1tail =>
    if t.eType = CXXTokenType.ParenthesisChain then
      match rest1 with
      | t2 :: rest2 =>
        if t2.eType = CXXTokenType.ParenthesisChain then
          if ctx.looksLikeFunctionParameterList t2.pChain then
            match lastPossiblyNestedTokenOfTypeList CXXTokenType.Identifier
                t.pChain with
            | some pid => finishDeclarator te0 pid t left1 (t2 :: rest2)
            | none => ctorInstantiationBranch ctx eScopeKind te0 prev t
                left1tail rest1
          else ctorInstantiationBranch ctx eScopeKind te0 prev t left1tail
            rest1
        else ctorInstantiationBranch ctx eScopeKind te0 prev t left1tail rest1
      | [] => ctorInstantiationBranch ctx eScopeKind te0 prev t left1tail rest1
    else
      if prev.eType = CXXTokenType.Identifier then
        finishDeclarator te0 prev prev left1tail (t :: rest1)
      else none

def scopeEntryForQualifier (q : CXXToken) : CXXScopeEntry :=
  ⟨q, CXXTagKind.CLASS, CXXScopeAccess.Unknown⟩

/-- The file-scope visibility formula (lines 357-359). -/
def computeIsFileScope (eScopeKind : CXXTagKind) (seenStatic isHeader : Bool) :
    Bool :=
  (decide (eScopeKind = CXXTagKind.NAMESPACE) && seenStatic && !isHeader)
    || decide (eScopeKind = CXXTagKind.FUNCTION)
    || (!(decide (eScopeKind = CXXTagKind.NAMESPACE))
        && !(decide (eScopeKind = CXXTagKind.FUNCTION)) && !isHeader)

/-- The "very simple typeref" of lines 332-355: attached exactly when the chain
currently holds 4 tokens, `pTypeEnd` is an identifier and the token preceding
it is a struct/union/class/enum keyword. -/
def simpleTypeRefOf (curLen : Nat) (teTok : CXXToken)
    (tePrev : Option CXXToken) : Option (String × String) :=
  match tePrev with
  | none => none
  | some p =>
    if curLen = 4 ∧ teTok.eType = CXXTokenType.Identifier
        ∧ p.eType = CXXTokenType.Keyword
        ∧ isStructLikeKeyword p.eKeyword = true then
      some (p.word, teTok.word)
    else none

/-- Scope pushes (lines 301-321), tag emission (lines 323-362) and the matching
scope pops (lines 364-368) for one recognized declarator.  Push and pop are the
spec's Scope Stack operations; each push also records that the qualifier token
was taken from the chain (`cxxTokenChainTake`). -/
def commitDeclarator (ctx : CXXParserCtx) (eScopeKind : CXXTagKind)
    (acc : ScanAcc) (d : DeclMatch) : ScanAcc :=
  let stack1 := d.quals.foldl (fun s q => scopeEntryForQualifier q :: s)
    acc.stack
  let pushEvs := d.quals.map (fun q => ScopeEvent.push (scopeEntryForQualifier q))
  let curLen := d.left.length + d.right.length
  let taken1 := acc.taken + d.quals.length
  let kind := if ctx.bSeenExtern = true then CXXTagKind.EXTERNVAR
    else cxxScopeGetVariableKind stack1
  let emits1 :=
    match cxxTagBegin ctx d.pid.word kind d.pid with
    | none => acc.emits
    | some tag0 =>
      let tag1 : TagEntryInfo :=
        { tag0 with
          typeRef := simpleTypeRefOf curLen d.typeEnd.1 d.typeEnd.2,
          isFileScope := computeIsFileScope eScopeKind ctx.bSeenStatic
            ctx.bIsHeader }
      acc.emits ++ [⟨tag1, curLen, taken1, d.typeEnd.1, d.typeEnd.2⟩]
  { stack := stack1.drop d.quals.length,
    events := acc.events ++ pushEvs
      ++ List.replicate d.quals.length ScopeEvent.pop,
    emits := emits1,
    gotVariable := true,
    taken := taken1 }

/-- Trailer handling (lines 370-378): if the cursor is on a parenthesis chain,
square parenthesis chain, single colon or assignment, run to the next comma,
semicolon or opening bracket; otherwise leave the cursor in place. -/
def advanceAfterDeclarator (left right : List CXXToken) :
    Option (List CXXToken × List CXXToken) :=
  match right with
  | [] => none
  | t :: _ =>
    if isTrailerFormType t.eType then
      cxxTokenChainNextTokenOfTypeZ isCommaSemicolonBracketType left right
    else some (left, right)

/-- The outer declarator loop of `cxxParserExtractVariableDeclarations` (lines
143-389), one recursive call per comma-separated declarator.  The `fuel`
argument makes the recursion structural; the canonical entry point supplies
`pChain.length + 1`, which is enough fuel because every loop iteration that
recurses consumes at least the comma from the remaining chain. -/
def extractLoop (ctx : CXXParserCtx) (eScopeKind : CXXTagKind) :
    Nat → List CXXToken → List CXXToken →
    Option (CXXToken × Option CXXToken) → ScanAcc → ScanResult
  | 0, _, _, te, acc => mkScanResult acc te
  | fuel + 1, left, right, te, acc =>
    match scanForward 0 left right with
    | none => mkScanResult acc te
    | some (left1, right1) =>
      match right1 with
      | [] => mkScanResult acc te
      | t :: rest1 =>
        match classifyAndAnchor ctx eScopeKind te left1 t rest1 with
        | none => mkScanResult acc te
        | some d =>
          let acc1 := commitDeclarator ctx eScopeKind acc d
          match advanceAfterDeclarator d.left d.right with
          | none => mkScanResult acc1 (some d.typeEnd)
          | some (left2, right2) =>
            match right2 with
            | [] => mkScanResult acc1 (some d.typeEnd)
            | tk :: restk =>
              if isDeclEndType tk.eType then mkScanResult acc1 (some d.typeEnd)
              else extractLoop ctx eScopeKind fuel (tk :: left2) restk
                (some d.typeEnd) acc1

/-- The entry checks of lines 90-94 and 133-137: the chain must be non-empty and
start with an identifier or keyword. -/
def chainStartsWithIdentifierOrKeyword : List CXXToken → Bool
  | [] => false
  | t :: _ =>
    match t.eType with
    | CXXTokenType.Identifier | CXXTokenType.Keyword => true
    | _ => false

/-- `cxxParserExtractVariableDeclarations` (lines 86-393): the Declaration
Scanner.  `stack` is the scope stack at entry; the enclosing scope kind is
queried once at entry (line 129). -/
def cxxParserExtractVariableDeclarations (ctx : CXXParserCtx)
    (stack : List CXXScopeEntry) (pChain : List CXXToken) : ScanResult :=
  if chainStartsWithIdentifierOrKeyword pChain = true then
    extractLoop ctx (cxxScopeGetKind stack) (pChain.length + 1) [] pChain none
      ⟨stack, [], [], false, 0⟩
  else mkEmptyScanResult stack

/-- Replaying a scope event log against a stack; `none` when a pop finds the
stack empty.  Used to state that the scanner's pushes and pops are balanced in
LIFO order. -/
def replayScopeEvents : List ScopeEvent → List CXXScopeEntry →
    Option (List CXXScopeEntry)
  | [], s => some s
  | ScopeEvent.push e :: evs, s => replayScopeEvents evs (e :: s)
  | ScopeEvent.pop :: evs, s =>
    match s with
    | [] => none
    | _ :: s' => replayScopeEvents evs s'

/-! ## Concrete tokens and contexts for the scenario properties -/

def tokIdentifier (w : String) : CXXToken :=
  CXXToken.mk CXXTokenType.Identifier w CXXKeyword.kwOther []

def tokKeyword (w : String) (kw : CXXKeyword) : CXXToken :=
  CXXToken.mk CXXTokenType.Keyword w kw []

def tokMultipleColons : CXXToken :=
  CXXToken.mk CXXTokenType.MultipleColons "::" CXXKeyword.kwOther []

def tokSemicolon : CXXToken :=
  CXXToken.mk CXXTokenType.Semicolon ";" CXXKeyword.kwOther []

def tokComma : CXXToken :=
  CXXToken.mk CXXTokenType.Comma "," CXXKeyword.kwOther []

def tokAssignment : CXXToken :=
  CXXToken.mk CXXTokenType.Assignment "=" CXXKeyword.kwOther []

def tokNumber (w : String) : CXXToken :=
  CXXToken.mk CXXTokenType.Number w CXXKeyword.kwOther []

def tokOpeningParenthesis : CXXToken :=
  CXXToken.mk CXXTokenType.OpeningParenthesis "(" CXXKeyword.kwOther []

def tokClosingParenthesis : CXXToken :=
  CXXToken.mk CXXTokenType.ClosingParenthesis ")" CXXKeyword.kwOther []

/-- A parenthesis chain as the tokenizer builds it: the content surrounded by
the delimiter tokens (the heuristic's debug assertion at line 36 documents that
the chain starts with the opening parenthesis). -/
def parenthesizedChain (content : List CXXToken) : List CXXToken :=
  tokOpeningParenthesis :: content ++ [tokClosingParenthesis]

/-- A plain context: no extern/static seen, C++ mode, not a header, the
external parameter-list predicate rejects, the tag sink accepts. -/
def ctxDefault : CXXParserCtx :=
  ⟨false, false, true, false, fun _ => false, fun _ => true⟩

/-- Rules 2-5 of the spec's Constructor-Argument Heuristic description, stated
over the parenthesis content (first content token and its follower), to be
compared with the source heuristic. -/
def ctorParameterSetSpecRules (content : List CXXToken) : Bool :=
  match content with
  | t :: tn :: _ =>
    if isConstantType t.eType then true
    else if t.eType = CXXTokenType.Keyword
        ∧ isKeywordFollowType tn.eType = true then false
    else if t.eType = CXXTokenType.Identifier
        ∧ isIdentifierFollowType tn.eType = true then false
    else true
  | _ => true


/-- Invariant of the declarator loop: token conservation (`N` is the token
count of the chain at scanner entry), the lower bound on the segment before the
cursor once `pTypeEnd` with a preceding token is known, no takes before
`pTypeEnd` is resolved, and the cursor sits at the chain start or right after a
comma. -/
def loopInv (N : Nat) (left right : List CXXToken)
    (te : Option (CXXToken × Option CXXToken)) (acc : ScanAcc) : Prop :=
  left.length + right.length + acc.taken = N
  ∧ (∀ p q, te = some (p, some q) → 4 + acc.taken ≤ left.length)
  ∧ (te = none → acc.taken = 0)
  ∧ (left = [] ∨ ∃ c ls, left = c :: ls ∧ c.eType = CXXTokenType.Comma)

/-! ## Concrete chains and records used in the scenario properties -/

def chainScenarioF : List CXXToken :=
  [tokIdentifier "A", tokMultipleColons, tokIdentifier "B", tokMultipleColons,
   tokIdentifier "value", tokAssignment, tokNumber "0", tokSemicolon]

def chainScenarioFTyped : List CXXToken :=
  tokKeyword "int" CXXKeyword.kwOther :: chainScenarioF

def chainIntABC : List CXXToken :=
  [tokKeyword "int" CXXKeyword.kwOther, tokIdentifier "a", tokComma,
   tokIdentifier "b", tokComma, tokIdentifier "c", tokSemicolon]

def chainBadPreType : List CXXToken :=
  [tokKeyword "int" CXXKeyword.kwOther, tokNumber "0", tokIdentifier "x",
   tokSemicolon]

def chainStructFooBar : List CXXToken :=
  [tokKeyword "struct" CXXKeyword.kwSTRUCT, tokIdentifier "Foo",
   tokIdentifier "bar", tokSemicolon]

def chainIntX : List CXXToken :=
  [tokKeyword "int" CXXKeyword.kwOther, tokIdentifier "x", tokSemicolon]

def chainIntAQualB : List CXXToken :=
  [tokKeyword "int" CXXKeyword.kwOther, tokIdentifier "a", tokComma,
   tokIdentifier "B", tokMultipleColons, tokIdentifier "b", tokSemicolon]

def scopeEntryFunction : CXXScopeEntry :=
  ⟨tokIdentifier "f", CXXTagKind.FUNCTION, CXXScopeAccess.Unknown⟩

/-- The emit record the scanner produces on `struct Foo bar ;` with the
default context and an empty scope stack. -/
def emitRecStructFooBar : EmitRec :=
  ⟨⟨"bar", CXXTagKind.VARIABLE, some ("struct", "Foo"), false,
      tokIdentifier "bar"⟩,
    4, 0, tokIdentifier "Foo", some (tokKeyword "struct" CXXKeyword.kwSTRUCT)⟩

/-- The emit record the scanner produces on `int x ;` inside a function scope
with the default context. -/
def emitRecIntXLocal : EmitRec :=
  ⟨⟨"x", CXXTagKind.LOCAL, none, true, tokIdentifier "x"⟩,
    3, 0, tokKeyword "int" CXXKeyword.kwOther, none⟩

/-! ## Basic lemmas about the scope event log -/

theorem replayScopeEvents_append (e1 e2 : List ScopeEvent)
    (s : List CXXScopeEntry) :
    replayScopeEvents (e1 ++ e2) s =
      (replayScopeEvents e1 s).bind (replayScopeEvents e2) := by
  induction e1 generalizing s with
  | nil => simp [replayScopeEvents]
  | cons ev evs ih =>
    cases ev with
    | push e => simpa [replayScopeEvents] using ih (e :: s)
    | pop =>
      cases s with
      | nil => simp [replayScopeEvents]
      | cons a s' => simpa [replayScopeEvents] using ih s'

theorem replay_push_pop (quals : List CXXToken) (s : List CXXScopeEntry) :
    replayScopeEvents
      (quals.map (fun q => ScopeEvent.push (scopeEntryForQualifier q))
        ++ List.replicate quals.length ScopeEvent.pop) s = some s := by
  induction quals generalizing s with
  | nil => simp [replayScopeEvents]
  | cons q qs ih =>
    have h1 : List.replicate (qs.length + 1) ScopeEvent.pop
        = List.replicate qs.length ScopeEvent.pop ++ [ScopeEvent.pop] :=
      List.replicate_succ' _ _
    simp only [List.map_cons, List.length_cons, h1, List.cons_append,
      replayScopeEvents, List.append_eq]
    rw [← List.append_assoc, replayScopeEvents_append,
      ih (scopeEntryForQualifier q :: s)]
    simp [replayScopeEvents]

theorem drop_foldl_push (quals : List CXXToken) (s : List CXXScopeEntry) :
    (quals.foldl (fun st q => scopeEntryForQualifier q :: st) s).drop
      quals.length = s := by
  induction quals generalizing s with
  | nil => simp
  | cons q qs ih =>
    simp only [List.foldl_cons, List.length_cons]
    have h := ih (scopeEntryForQualifier q :: s)
    have h2 : (List.foldl (fun st q => scopeEntryForQualifier q :: st)
        (scopeEntryForQualifier q :: s) qs).drop (qs.length + 1)
        = ((List.foldl (fun st q => scopeEntryForQualifier q :: st)
          (scopeEntryForQualifier q :: s) qs).drop qs.length).drop 1 := by
      rw [List.drop_drop]
    rw [h2, h]
    simp

/-! ## Lemmas about the forward scan -/

theorem scanForward_some (right : List CXXToken) :
    ∀ (depth : Nat) (left l' r' : List CXXToken),
      scanForward depth left right = some (l', r') →
      l'.length + r'.length = left.length + right.length
      ∧ (∃ g, l' = g ++ left)
      ∧ ∃ u r'', r' = u :: r'' ∧ isNotableType u.eType = true := by
  induction right with
  | nil => intro depth left l' r' h; cases depth <;> simp [scanForward] at h
  | cons t rest ih =>
    intro depth left l' r' h
    cases depth with
    | succ d =>
      simp only [scanForward] at h
      split at h
      all_goals {
        obtain ⟨h1, ⟨g, h2⟩, h3⟩ := ih _ _ _ _ h
        refine ⟨by simp at h1 ⊢; omega, ⟨g ++ [t], by simp [h2]⟩, h3⟩
      }
    | zero =>
      simp only [scanForward] at h
      split at h
      · obtain ⟨rfl, rfl⟩ := Prod.mk.injEq .. ▸ Option.some.injEq .. ▸ h
        · exact ⟨rfl, ⟨[], rfl⟩, t, rest, rfl, by assumption⟩
      · split at h
        · obtain ⟨h1, ⟨g, h2⟩, h3⟩ := ih _ _ _ _ h
          exact ⟨by simp at h1 ⊢; omega, ⟨g ++ [t], by simp [h2]⟩, h3⟩
        · split at h
          · exact absurd h (by simp)
          · obtain ⟨h1, ⟨g, h2⟩, h3⟩ := ih _ _ _ _ h
            exact ⟨by simp at h1 ⊢; omega, ⟨g ++ [t], by simp [h2]⟩, h3⟩

/-! ## Lemmas about the trailer search -/

theorem findTokenOfTypeZ_some (pred : CXXTokenType → Bool)
    (right : List CXXToken) :
    ∀ (left l' r' : List CXXToken),
      findTokenOfTypeZ pred left right = some (l', r') →
      l'.length + r'.length = left.length + right.length
      ∧ left.length ≤ l'.length
      ∧ ∃ u r'', r' = u :: r'' ∧ pred u.eType = true := by
  induction right with
  | nil => intro left l' r' h; simp [findTokenOfTypeZ] at h
  | cons u rest ih =>
    intro left l' r' h
    simp only [findTokenOfTypeZ] at h
    split at h
    · obtain ⟨rfl, rfl⟩ := Prod.mk.injEq .. ▸ Option.some.injEq .. ▸ h
      exact ⟨rfl, le_refl _, u, rest, rfl, by assumption⟩
    · obtain ⟨h1, h2, h3⟩ := ih _ _ _ h
      exact ⟨by simp at h1 ⊢; omega, by simp at h2; omega, h3⟩

theorem cxxTokenChainNextTokenOfTypeZ_some (pred : CXXTokenType → Bool)
    (left right l' r' : List CXXToken)
    (h : cxxTokenChainNextTokenOfTypeZ pred left right = some (l', r')) :
    l'.length + r'.length = left.length + right.length
    ∧ left.length + 1 ≤ l'.length
    ∧ ∃ u r'', r' = u :: r'' ∧ pred u.eType = true := by
  cases right with
  | nil => simp [cxxTokenChainNextTokenOfTypeZ] at h
  | cons t rest =>
    simp only [cxxTokenChainNextTokenOfTypeZ] at h
    obtain ⟨h1, h2, h3⟩ := findTokenOfTypeZ_some pred rest (t :: left) l' r' h
    exact ⟨by simp at h1 ⊢; omega, by simp at h2; omega, h3⟩

theorem advanceAfterDeclarator_some (left : List CXXToken) (u0 : CXXToken)
    (r0 l2 r2 : List CXXToken)
    (hnot : isNotableType u0.eType = true ∨ u0.eType = CXXTokenType.ParenthesisChain)
    (h : advanceAfterDeclarator left (u0 :: r0) = some (l2, r2)) :
    l2.length + r2.length = left.length + (u0 :: r0).length
    ∧ left.length ≤ l2.length
    ∧ ∃ u rr, r2 = u :: rr
        ∧ (isDeclEndType u.eType = true ∨ u.eType = CXXTokenType.Comma) := by
  simp only [advanceAfterDeclarator] at h
  split at h
  · obtain ⟨h1, h2, u, rr, rfl, hpred⟩ :=
      cxxTokenChainNextTokenOfTypeZ_some _ _ _ _ _ h
    refine ⟨h1, by omega, u, rr, rfl, ?_⟩
    revert hpred
    cases u.eType <;> simp [isCommaSemicolonBracketType, isDeclEndType]
  · obtain ⟨rfl, rfl⟩ := Prod.mk.injEq .. ▸ Option.some.injEq .. ▸ h
    refine ⟨rfl, le_refl _, u0, r0, rfl, ?_⟩
    rename_i htr
    revert hnot htr
    cases u0.eType <;>
      simp [isNotableType, isTrailerFormType, isDeclEndType]

/-! ## Lemmas about the qualifier unwind -/

theorem collectScopeQualifiers_len :
    (before : List CXXToken) → ∀ (quals seps : List CXXToken) (tb : CXXToken)
      (below : List CXXToken),
      collectScopeQualifiers before = some (quals, seps, tb, below) →
      seps.length = quals.length
      ∧ before.length = 2 * quals.length + 1 + below.length
  | [] => by
    intro quals seps tb below h
    simp [collectScopeQualifiers] at h
  | [tb0] => by
    intro quals seps tb below h
    simp only [collectScopeQualifiers] at h
    split at h
    · simp at h
    · simp only [Option.some.injEq, Prod.mk.injEq] at h
      obtain ⟨rfl, rfl, rfl, rfl⟩ := h
      simp
  | tb0 :: q0 :: rest2 => by
    intro quals seps tb below h
    simp only [collectScopeQualifiers] at h
    split at h
    · split at h
      · cases hrec : collectScopeQualifiers rest2 with
        | none => rw [hrec] at h; simp at h
        | some r =>
          obtain ⟨quals2, seps2, tb2, below2⟩ := r
          rw [hrec] at h
          simp only [Option.some.injEq, Prod.mk.injEq] at h
          obtain ⟨rfl, rfl, rfl, rfl⟩ := h
          obtain ⟨h1, h2⟩ := collectScopeQualifiers_len rest2 _ _ _ _ hrec
          constructor
          · simp [h1]
          · simp at h2 ⊢
            omega
      · simp at h
    · simp only [Option.some.injEq, Prod.mk.injEq] at h
      obtain ⟨rfl, rfl, rfl, rfl⟩ := h
      simp
      omega

theorem collectScopeQualifiers_barrier :
    (g : List CXXToken) → ∀ (c : CXXToken) (ls quals seps : List CXXToken)
      (tb : CXXToken) (below : List CXXToken),
      collectScopeQualifiers (g ++ c :: ls) = some (quals, seps, tb, below) →
      c.eType ≠ CXXTokenType.MultipleColons →
      c.eType ≠ CXXTokenType.Identifier →
      ls.length ≤ below.length
  | [] => by
    intro c ls quals seps tb below h hc1 hc2
    rw [List.nil_append] at h
    cases ls with
    | nil =>
      simp only [collectScopeQualifiers] at h
      split at h
      · simp at h
      · simp only [Option.some.injEq, Prod.mk.injEq] at h
        obtain ⟨-, -, -, rfl⟩ := h
        exact le_refl _
    | cons l0 ls' =>
      simp only [collectScopeQualifiers] at h
      split at h
      · rename_i hx
        exact absurd hx hc1
      · simp only [Option.some.injEq, Prod.mk.injEq] at h
        obtain ⟨-, -, -, rfl⟩ := h
        exact le_refl _
  | [x] => by
    intro c ls quals seps tb below h hc1 hc2
    rw [List.cons_append, List.nil_append] at h
    simp only [collectScopeQualifiers] at h
    split at h
    · simp at h
    · simp only [Option.some.injEq, Prod.mk.injEq] at h
      obtain ⟨-, -, -, rfl⟩ := h
      simp
  | x :: y :: g' => by
    intro c ls quals seps tb below h hc1 hc2
    rw [List.cons_append, List.cons_append] at h
    simp only [collectScopeQualifiers, List.append_eq] at h
    split at h
    · split at h
      · cases hrec : collectScopeQualifiers (g' ++ c :: ls) with
        | none => rw [hrec] at h; simp at h
        | some r =>
          obtain ⟨q2, s2, t2, b2⟩ := r
          rw [hrec] at h
          simp only [Option.some.injEq, Prod.mk.injEq] at h
          obtain ⟨-, -, -, rfl⟩ := h
          exact collectScopeQualifiers_barrier g' c ls _ _ _ _ hrec hc1 hc2
      · simp at h
    · simp only [Option.some.injEq, Prod.mk.injEq] at h
      obtain ⟨-, -, -, rfl⟩ := h
      simp [List.length_append]
      omega

/-! ## Lemmas about the backward classification -/

theorem finishDeclarator_some (te0 : Option (CXXToken × Option CXXToken))
    (pid front : CXXToken) (before right2 : List CXXToken) (d : DeclMatch)
    (h : finishDeclarator te0 pid front before right2 = some d) :
    ∃ quals seps tb below,
      collectScopeQualifiers before = some (quals, seps, tb, below)
      ∧ d.pid = pid ∧ d.quals = quals
      ∧ d.left = front :: (seps ++ tb :: below) ∧ d.right = right2
      ∧ (te0 = none → d.typeEnd = (tb, below.head?))
      ∧ (∀ p, te0 = some p → d.typeEnd = p) := by
  cases te0 with
  | none =>
    cases hcol : collectScopeQualifiers before with
    | none =>
      simp only [finishDeclarator, hcol] at h
      exact absurd h (by simp)
    | some r =>
      obtain ⟨quals, seps, tb, below⟩ := r
      simp only [finishDeclarator, hcol] at h
      refine ⟨quals, seps, tb, below, rfl, ?_⟩
      split at h
      · injection h with h
        subst h
        simp
      · simp at h
  | some p =>
    cases hcol : collectScopeQualifiers before with
    | none =>
      simp only [finishDeclarator, hcol] at h
      exact absurd h (by simp)
    | some r =>
      obtain ⟨quals, seps, tb, below⟩ := r
      simp only [finishDeclarator, hcol] at h
      refine ⟨quals, seps, tb, below, rfl, ?_⟩
      injection h with h
      subst h
      simp

theorem ctorInstantiationBranch_some (ctx : CXXParserCtx) (k : CXXTagKind)
    (te0 : Option (CXXToken × Option CXXToken)) (prev t : CXXToken)
    (left1tail rest1 : List CXXToken) (d : DeclMatch)
    (h : ctorInstantiationBranch ctx k te0 prev t left1tail rest1 = some d) :
    prev.eType = CXXTokenType.Identifier
    ∧ finishDeclarator te0 prev prev left1tail (t :: rest1) = some d := by
  unfold ctorInstantiationBranch at h
  split at h
  · rename_i hcond
    exact ⟨hcond.1, h⟩
  · simp at h

theorem classifyAndAnchor_some (ctx : CXXParserCtx) (k : CXXTagKind)
    (te0 : Option (CXXToken × Option CXXToken)) (left1 : List CXXToken)
    (t : CXXToken) (rest1 : List CXXToken) (d : DeclMatch)
    (h : classifyAndAnchor ctx k te0 left1 t rest1 = some d) :
    ∃ pid front before right2,
      finishDeclarator te0 pid front before right2 = some d
      ∧ ((before = left1 ∧ right2 = rest1
            ∧ ∃ u r2, right2 = u :: r2
              ∧ u.eType = CXXTokenType.ParenthesisChain)
         ∨ (front.eType = CXXTokenType.Identifier
            ∧ left1 = front :: before ∧ right2 = t :: rest1)) := by
  cases left1 with
  | nil => simp [classifyAndAnchor] at h
  | cons prev tail =>
    cases rest1 with
    | nil =>
      simp only [classifyAndAnchor] at h
      by_cases hpc : t.eType = CXXTokenType.ParenthesisChain
      · rw [if_pos hpc] at h
        obtain ⟨hid, hfin⟩ := ctorInstantiationBranch_some _ _ _ _ _ _ _ _ h
        exact ⟨prev, prev, tail, t :: [], hfin, Or.inr ⟨hid, rfl, rfl⟩⟩
      · rw [if_neg hpc] at h
        by_cases hid : prev.eType = CXXTokenType.Identifier
        · rw [if_pos hid] at h
          exact ⟨prev, prev, tail, t :: [], h, Or.inr ⟨hid, rfl, rfl⟩⟩
        · rw [if_neg hid] at h
          exact absurd h (by simp)
    | cons t2 rest2 =>
      simp only [classifyAndAnchor] at h
      by_cases hpc : t.eType = CXXTokenType.ParenthesisChain
      · rw [if_pos hpc] at h
        by_cases hpc2 : t2.eType = CXXTokenType.ParenthesisChain
        · rw [if_pos hpc2] at h
          by_cases hfpl : ctx.looksLikeFunctionParameterList t2.pChain = true
          · rw [if_pos hfpl] at h
            cases hlast : lastPossiblyNestedTokenOfTypeList
                CXXTokenType.Identifier t.pChain with
            | some pid =>
              rw [hlast] at h
              exact ⟨pid, t, prev :: tail, t2 :: rest2, h,
                Or.inl ⟨rfl, rfl, t2, rest2, rfl, hpc2⟩⟩
            | none =>
              rw [hlast] at h
              obtain ⟨hid, hfin⟩ := ctorInstantiationBranch_some _ _ _ _ _ _ _ _ h
              exact ⟨prev, prev, tail, t :: t2 :: rest2, hfin,
                Or.inr ⟨hid, rfl, rfl⟩⟩
          · rw [if_neg hfpl] at h
            obtain ⟨hid, hfin⟩ := ctorInstantiationBranch_some _ _ _ _ _ _ _ _ h
            exact ⟨prev, prev, tail, t :: t2 :: rest2, hfin,
              Or.inr ⟨hid, rfl, rfl⟩⟩
        · rw [if_neg hpc2] at h
          obtain ⟨hid, hfin⟩ := ctorInstantiationBranch_some _ _ _ _ _ _ _ _ h
          exact ⟨prev, prev, tail, t :: t2 :: rest2, hfin,
            Or.inr ⟨hid, rfl, rfl⟩⟩
      · rw [if_neg hpc] at h
        by_cases hid : prev.eType = CXXTokenType.Identifier
        · rw [if_pos hid] at h
          exact ⟨prev, prev, tail, t :: t2 :: rest2, h, Or.inr ⟨hid, rfl, rfl⟩⟩
        · rw [if_neg hid] at h
          exact absurd h (by simp)

/-- Arithmetic facts about one recognized declarator, for the loop invariants:
token conservation, the shape of the cursor after classification, lower bounds
on the chain segment before the cursor, and persistence of `pTypeEnd`. -/
theorem classifyAndAnchor_facts (ctx : CXXParserCtx) (k : CXXTagKind)
    (te0 : Option (CXXToken × Option CXXToken)) (left1 : List CXXToken)
    (t : CXXToken) (rest1 : List CXXToken) (d : DeclMatch)
    (h : classifyAndAnchor ctx k te0 left1 t rest1 = some d) :
    d.left.length + d.right.length + d.quals.length
        = left1.length + rest1.length + 1
    ∧ (∃ u r2, d.right = u :: r2
        ∧ (u.eType = CXXTokenType.ParenthesisChain ∨ (u = t ∧ r2 = rest1)))
    ∧ (te0 = none → d.typeEnd.2 ≠ none →
        d.quals.length + 3 ≤ d.left.length)
    ∧ (∀ p, te0 = some p → d.typeEnd = p)
    ∧ d.quals.length + 2 ≤ d.left.length
    ∧ (∀ gp (c : CXXToken) ls, left1 = gp ++ c :: ls →
        c.eType ≠ CXXTokenType.MultipleColons →
        c.eType ≠ CXXTokenType.Identifier →
        d.quals.length + 2 + ls.length ≤ d.left.length) := by
  obtain ⟨pid, front, before, right2, hfin, hshape⟩ :=
    classifyAndAnchor_some ctx k te0 left1 t rest1 d h
  obtain ⟨quals, seps, tb, below, hcol, hpid, hquals, hleft, hright, hte0,
    hte1⟩ := finishDeclarator_some te0 pid front before right2 d hfin
  obtain ⟨hseps, hlen⟩ := collectScopeQualifiers_len before quals seps tb
    below hcol
  have hdl : d.left.length = quals.length + 2 + below.length := by
    rw [hleft]
    simp [hseps]
    omega
  refine ⟨?_, ?_, ?_, hte1, ?_, ?_⟩
  · -- token conservation
    rcases hshape with ⟨hb, hr, u, r2, hur, _⟩ | ⟨_, hl1, hr⟩
    · subst hb
      rw [hright, hr]
      simp [hdl, hquals] at *
      omega
    · rw [hright, hr, hl1]
      simp [hdl, hquals] at *
      omega
  · -- cursor head shape
    rcases hshape with ⟨hb, hr, u, r2, hur, hu⟩ | ⟨_, hl1, hr⟩
    · exact ⟨u, r2, by rw [hright, hur], Or.inl hu⟩
    · exact ⟨t, rest1, by rw [hright, hr], Or.inr ⟨rfl, rfl⟩⟩
  · -- first-declarator lower bound when the pre-type token exists
    intro h0 hprev
    have := hte0 h0
    rw [this] at hprev
    cases below with
    | nil => simp at hprev
    | cons b0 bs =>
      rw [hdl, hquals]
      simp
      omega
  · -- generic lower bound
    rw [hdl, hquals]
    omega
  · -- comma-barrier lower bound
    intro gp c ls hsplit hc1 hc2
    rcases hshape with ⟨hb, hr, u, r2, hur, hu⟩ | ⟨hfront, hl1, hr⟩
    · subst hb
      have hbar := collectScopeQualifiers_barrier gp c ls quals seps tb below
        (by rw [← hsplit]; exact hcol) hc1 hc2
      rw [hdl, hquals]
      omega
    · cases gp with
      | nil =>
        simp only [List.nil_append] at hsplit
        rw [hsplit] at hl1
        injection hl1 with hfc _
        rw [← hfc] at hfront
        exact absurd hfront hc2
      | cons g0 gp' =>
        simp only [List.cons_append] at hsplit
        rw [hsplit] at hl1
        injection hl1 with _ hbefore
        have hbar := collectScopeQualifiers_barrier gp' c ls quals seps tb
          below (by rw [hbefore]; exact hcol) hc1 hc2
        rw [hdl, hquals]
        omega

/-! ## Lemmas about one declarator's commit -/

theorem commitDeclarator_stack (ctx : CXXParserCtx) (k : CXXTagKind)
    (acc : ScanAcc) (d : DeclMatch) :
    (commitDeclarator ctx k acc d).stack = acc.stack := by
  simp only [commitDeclarator]
  exact drop_foldl_push d.quals acc.stack

theorem commitDeclarator_gotVariable (ctx : CXXParserCtx) (k : CXXTagKind)
    (acc : ScanAcc) (d : DeclMatch) :
    (commitDeclarator ctx k acc d).gotVariable = true := rfl

theorem commitDeclarator_taken (ctx : CXXParserCtx) (k : CXXTagKind)
    (acc : ScanAcc) (d : DeclMatch) :
    (commitDeclarator ctx k acc d).taken = acc.taken + d.quals.length := rfl

theorem commitDeclarator_events (ctx : CXXParserCtx) (k : CXXTagKind)
    (acc : ScanAcc) (d : DeclMatch) (s s0 : List CXXScopeEntry)
    (hs : replayScopeEvents acc.events s = some s0) :
    replayScopeEvents (commitDeclarator ctx k acc d).events s = some s0 := by
  have hev : (commitDeclarator ctx k acc d).events
      = acc.events
        ++ (d.quals.map (fun q => ScopeEvent.push (scopeEntryForQualifier q))
          ++ List.replicate d.quals.length ScopeEvent.pop) := by
    simp only [commitDeclarator]
    rw [List.append_assoc]
  rw [hev, replayScopeEvents_append, hs]
  simpa using replay_push_pop d.quals s0

theorem commitDeclarator_emits (ctx : CXXParserCtx) (k : CXXTagKind)
    (acc : ScanAcc) (d : DeclMatch) :
    ∃ new, (commitDeclarator ctx k acc d).emits = acc.emits ++ new
      ∧ ∀ e ∈ new,
          e.curLen = d.left.length + d.right.length
          ∧ e.taken = acc.taken + d.quals.length
          ∧ e.typeEnd = d.typeEnd.1 ∧ e.typeEndPrev = d.typeEnd.2
          ∧ e.tag.isFileScope
              = computeIsFileScope k ctx.bSeenStatic ctx.bIsHeader
          ∧ e.tag.typeRef = simpleTypeRefOf e.curLen e.typeEnd e.typeEndPrev
    := by
  simp only [commitDeclarator, cxxTagBegin]
  by_cases hacc : ctx.tagAccept d.pid.word = true
  · rw [if_pos hacc]
    refine ⟨_, rfl, ?_⟩
    intro e he
    simp only [List.mem_singleton] at he
    subst he
    simp
  · rw [if_neg hacc]
    exact ⟨[], by simp, by simp⟩

/-! ## The loop invariant and the master lemma -/

/-- Counting facts at the moment one declarator is committed. -/
theorem commit_emit_bounds (ctx : CXXParserCtx) (k : CXXTagKind)
    (left right left1 : List CXXToken) (t : CXXToken) (rest1 : List CXXToken)
    (te : Option (CXXToken × Option CXXToken)) (acc : ScanAcc) (d : DeclMatch)
    (hscan : scanForward 0 left right = some (left1, t :: rest1))
    (hcls : classifyAndAnchor ctx k te left1 t rest1 = some d)
    (N : Nat) (hinv : loopInv N left right te acc) :
    (d.left.length + d.right.length) + (acc.taken + d.quals.length) = N
    ∧ (d.typeEnd.2 ≠ none →
        4 + (acc.taken + d.quals.length)
          ≤ d.left.length + d.right.length) := by
  obtain ⟨hN, hA, hB, hC⟩ := hinv
  obtain ⟨hsum1, ⟨g, hg⟩, u, r'', hu, hunot⟩ :=
    scanForward_some right 0 left left1 (t :: rest1) hscan
  injection hu with hu1 hu2
  subst hu1
  subst hu2
  obtain ⟨fcount, ⟨u2, r2, hur2, hu2alt⟩, f3, f4, f5, f6⟩ :=
    classifyAndAnchor_facts ctx k te left1 t rest1 d hcls
  have hdr1 : 1 ≤ d.right.length := by
    rw [hur2]; simp
  constructor
  · simp only [List.length_cons] at hsum1
    omega
  · intro hprev
    cases te with
    | none =>
      have ht0 := hB rfl
      have := f3 rfl hprev
      omega
    | some p =>
      obtain ⟨p1, p2⟩ := p
      have hdp := f4 (p1, p2) rfl
      cases p2 with
      | none => rw [hdp] at hprev; simp at hprev
      | some p2v =>
        have hAle := hA p1 p2v rfl
        have hleftne : left ≠ [] := by
          intro hnil
          rw [hnil] at hAle
          simp at hAle
        rcases hC with hnil | ⟨c, ls, hcls2, hcomma⟩
        · exact absurd hnil hleftne
        · have hbar := f6 g c ls (by rw [hg, hcls2]) ?_ ?_
          · rw [hcls2] at hAle
            simp only [List.length_cons] at hAle
            rw [hcls2] at hg
            omega
          · rw [hcomma]; intro hcon; cases hcon
          · rw [hcomma]; intro hcon; cases hcon

/-- After committing one declarator and stepping past the comma, the loop
invariant holds again for the recursive call. -/
theorem commit_next_inv (ctx : CXXParserCtx) (k : CXXTagKind)
    (left right left1 : List CXXToken) (t : CXXToken) (rest1 : List CXXToken)
    (te : Option (CXXToken × Option CXXToken)) (acc : ScanAcc) (d : DeclMatch)
    (left2 : List CXXToken) (tk : CXXToken) (restk : List CXXToken)
    (hscan : scanForward 0 left right = some (left1, t :: rest1))
    (hcls : classifyAndAnchor ctx k te left1 t rest1 = some d)
    (hadv : advanceAfterDeclarator d.left d.right = some (left2, tk :: restk))
    (hend : ¬ isDeclEndType tk.eType = true)
    (N : Nat) (hinv : loopInv N left right te acc) :
    loopInv N (tk :: left2) restk (some d.typeEnd)
      (commitDeclarator ctx k acc d) := by
  obtain ⟨hN, hA, hB, hC⟩ := hinv
  obtain ⟨hsum1, ⟨g, hg⟩, u, r'', hu, hunot⟩ :=
    scanForward_some right 0 left left1 (t :: rest1) hscan
  injection hu with hu1 hu2
  subst hu1
  subst hu2
  obtain ⟨fcount, ⟨u2, r2, hur2, hu2alt⟩, f3, f4, f5, f6⟩ :=
    classifyAndAnchor_facts ctx k te left1 t rest1 d hcls
  have hnot2 : isNotableType u2.eType = true
      ∨ u2.eType = CXXTokenType.ParenthesisChain := by
    rcases hu2alt with hp | ⟨rfl, rfl⟩
    · exact Or.inr hp
    · exact Or.inl hunot
  rw [hur2] at hadv
  obtain ⟨hasum, hale, u3, rr3, hu3, hu3end⟩ :=
    advanceAfterDeclarator_some d.left u2 r2 left2 (tk :: restk) hnot2 hadv
  injection hu3 with hu31 hu32
  subst hu31
  subst hu32
  have htk : tk.eType = CXXTokenType.Comma := by
    rcases hu3end with hde | hcm
    · exact absurd hde hend
    · exact hcm
  have hLsum : left2.length + (tk :: restk).length
      = d.left.length + d.right.length := by
    rw [hur2]
    exact hasum
  have htaken : (commitDeclarator ctx k acc d).taken
      = acc.taken + d.quals.length := commitDeclarator_taken ctx k acc d
  refine ⟨?_, ?_, ?_, ?_⟩
  · rw [htaken]
    simp only [List.length_cons] at hsum1 hLsum ⊢
    omega
  · intro p q hpq
    injection hpq with hpq
    rw [htaken]
    have hprev : d.typeEnd.2 ≠ none := by
      rw [hpq]
      simp
    have hdl : d.left.length ≤ left2.length := hale
    cases te with
    | none =>
      have ht0 := hB rfl
      have := f3 rfl hprev
      simp only [List.length_cons]
      omega
    | some pp =>
      obtain ⟨p1, p2⟩ := pp
      have hdp := f4 (p1, p2) rfl
      cases p2 with
      | none => rw [hdp] at hprev; simp at hprev
      | some p2v =>
        have hAle := hA p1 p2v rfl
        have hleftne : left ≠ [] := by
          intro hnil
          rw [hnil] at hAle
          simp at hAle
        rcases hC with hnil | ⟨c, ls, hcls2, hcomma⟩
        · exact absurd hnil hleftne
        · have hbar := f6 g c ls (by rw [hg, hcls2]) ?_ ?_
          · rw [hcls2] at hAle
            simp only [List.length_cons] at hAle ⊢
            omega
          · rw [hcomma]; intro hcon; cases hcon
          · rw [hcomma]; intro hcon; cases hcon
  · intro hcon
    cases hcon
  · exact Or.inr ⟨tk, left2, rfl, htk⟩

/-- Master induction over the declarator loop: the scope stack is restored, the
event log replays to the entry stack, the success flag is monotone, a resolved
`pTypeEnd` persists, and committed tags extend the accumulated list with
records satisfying the file-scope formula, the typeref formula and (under the
loop invariant) the counting bounds. -/
theorem extractLoop_master (ctx : CXXParserCtx) (k : CXXTagKind) :
    ∀ (fuel : Nat) (left right : List CXXToken)
      (te : Option (CXXToken × Option CXXToken)) (acc : ScanAcc),
      (extractLoop ctx k fuel left right te acc).stack = acc.stack
      ∧ (∀ s, replayScopeEvents acc.events s = some acc.stack →
          replayScopeEvents (extractLoop ctx k fuel left right te acc).events s
            = some acc.stack)
      ∧ (acc.gotVariable = true →
          (extractLoop ctx k fuel left right te acc).gotVariable = true)
      ∧ (∀ p, te = some p →
          (extractLoop ctx k fuel left right te acc).typeEnd = some p)
      ∧ ∃ new, (extractLoop ctx k fuel left right te acc).emits
            = acc.emits ++ new
          ∧ (∀ e ∈ new,
              e.tag.isFileScope
                  = computeIsFileScope k ctx.bSeenStatic ctx.bIsHeader
              ∧ e.tag.typeRef
                  = simpleTypeRefOf e.curLen e.typeEnd e.typeEndPrev)
          ∧ (∀ N, loopInv N left right te acc →
              ∀ e ∈ new, e.curLen + e.taken = N
                ∧ (e.typeEndPrev ≠ none → 4 + e.taken ≤ e.curLen)) := by
  intro fuel
  induction fuel with
  | zero =>
    intro left right te acc
    exact ⟨rfl, fun s hs => hs, fun hg => hg, fun p hp => hp,
      ⟨[], by simp [extractLoop, mkScanResult], by simp, by simp⟩⟩
  | succ fuel ih =>
    intro left right te acc
    cases hscan : scanForward 0 left right with
    | none =>
      have hstep : extractLoop ctx k (fuel + 1) left right te acc
          = mkScanResult acc te := by
        simp only [extractLoop, hscan]
      rw [hstep]
      exact ⟨rfl, fun s hs => hs, fun hg => hg, fun p hp => hp,
        ⟨[], by simp [mkScanResult], by simp, by simp⟩⟩
    | some pr =>
      obtain ⟨left1, right1⟩ := pr
      cases right1 with
      | nil =>
        have hstep : extractLoop ctx k (fuel + 1) left right te acc
            = mkScanResult acc te := by
          simp only [extractLoop, hscan]
        rw [hstep]
        exact ⟨rfl, fun s hs => hs, fun hg => hg, fun p hp => hp,
          ⟨[], by simp [mkScanResult], by simp, by simp⟩⟩
      | cons t rest1 =>
        cases hcls : classifyAndAnchor ctx k te left1 t rest1 with
        | none =>
          have hstep : extractLoop ctx k (fuel + 1) left right te acc
              = mkScanResult acc te := by
            simp only [extractLoop, hscan, hcls]
          rw [hstep]
          exact ⟨rfl, fun s hs => hs, fun hg => hg, fun p hp => hp,
            ⟨[], by simp [mkScanResult], by simp, by simp⟩⟩
        | some d =>
          obtain ⟨new1, hnew1eq, hnew1fact⟩ :=
            commitDeclarator_emits ctx k acc d
          obtain ⟨-, -, -, f4, -, -⟩ :=
            classifyAndAnchor_facts ctx k te left1 t rest1 d hcls
          have hCOK1 : ∀ N, loopInv N left right te acc →
              ∀ e ∈ new1, e.curLen + e.taken = N
                ∧ (e.typeEndPrev ≠ none → 4 + e.taken ≤ e.curLen) := by
            intro N hinv e he
            obtain ⟨hc1, hc2, hc3, hc4, -, -⟩ := hnew1fact e he
            obtain ⟨hbe, hbb⟩ := commit_emit_bounds ctx k left right left1 t
              rest1 te acc d hscan hcls N hinv
            constructor
            · rw [hc1, hc2]; exact hbe
            · intro hpne
              rw [hc1, hc2]
              apply hbb
              rw [← hc4]
              exact hpne
          have hUOK1 : ∀ e ∈ new1,
              e.tag.isFileScope
                  = computeIsFileScope k ctx.bSeenStatic ctx.bIsHeader
              ∧ e.tag.typeRef
                  = simpleTypeRefOf e.curLen e.typeEnd e.typeEndPrev := by
            intro e he
            obtain ⟨-, -, -, -, h5, h6⟩ := hnew1fact e he
            exact ⟨h5, h6⟩
          cases hadv : advanceAfterDeclarator d.left d.right with
          | none =>
            have hstep : extractLoop ctx k (fuel + 1) left right te acc
                = mkScanResult (commitDeclarator ctx k acc d)
                  (some d.typeEnd) := by
              simp only [extractLoop, hscan, hcls, hadv]
            rw [hstep]
            exact ⟨commitDeclarator_stack ctx k acc d,
              fun s hs => commitDeclarator_events ctx k acc d s acc.stack hs,
              fun _ => commitDeclarator_gotVariable ctx k acc d,
              fun p hp => by rw [f4 p hp]; rfl,
              new1, hnew1eq, hUOK1, hCOK1⟩
          | some pr2 =>
            obtain ⟨left2, right2⟩ := pr2
            cases right2 with
            | nil =>
              have hstep : extractLoop ctx k (fuel + 1) left right te acc
                  = mkScanResult (commitDeclarator ctx k acc d)
                    (some d.typeEnd) := by
                simp only [extractLoop, hscan, hcls, hadv]
              rw [hstep]
              exact ⟨commitDeclarator_stack ctx k acc d,
                fun s hs => commitDeclarator_events ctx k acc d s acc.stack hs,
                fun _ => commitDeclarator_gotVariable ctx k acc d,
                fun p hp => by rw [f4 p hp]; rfl,
                new1, hnew1eq, hUOK1, hCOK1⟩
            | cons tk restk =>
              by_cases hend : isDeclEndType tk.eType = true
              · have hstep : extractLoop ctx k (fuel + 1) left right te acc
                    = mkScanResult (commitDeclarator ctx k acc d)
                      (some d.typeEnd) := by
                  simp only [extractLoop, hscan, hcls, hadv]
                  rw [if_pos hend]
                rw [hstep]
                exact ⟨commitDeclarator_stack ctx k acc d,
                  fun s hs =>
                    commitDeclarator_events ctx k acc d s acc.stack hs,
                  fun _ => commitDeclarator_gotVariable ctx k acc d,
                  fun p hp => by rw [f4 p hp]; rfl,
                  new1, hnew1eq, hUOK1, hCOK1⟩
              · have hstep : extractLoop ctx k (fuel + 1) left right te acc
                    = extractLoop ctx k fuel (tk :: left2) restk
                      (some d.typeEnd) (commitDeclarator ctx k acc d) := by
                  simp only [extractLoop, hscan, hcls, hadv]
                  rw [if_neg hend]
                rw [hstep]
                obtain ⟨ihstack, ihreplay, ihgot, ihte, new2, ihemits, ihUOK,
                  ihCOK⟩ := ih (tk :: left2) restk (some d.typeEnd)
                    (commitDeclarator ctx k acc d)
                refine ⟨?_, ?_, ?_, ?_, new1 ++ new2, ?_, ?_, ?_⟩
                · rw [ihstack, commitDeclarator_stack]
                · intro s hs
                  have hs1 : replayScopeEvents
                      (commitDeclarator ctx k acc d).events s
                      = some (commitDeclarator ctx k acc d).stack := by
                    rw [commitDeclarator_stack]
                    exact commitDeclarator_events ctx k acc d s acc.stack hs
                  have h2 := ihreplay s hs1
                  rw [commitDeclarator_stack] at h2
                  exact h2
                · intro _
                  exact ihgot (commitDeclarator_gotVariable ctx k acc d)
                · intro p hp
                  have h3 := ihte d.typeEnd rfl
                  rw [← f4 p hp]
                  exact h3
                · rw [ihemits, hnew1eq, List.append_assoc]
                · intro e he
                  rcases List.mem_append.mp he with h1 | h2
                  · exact hUOK1 e h1
                  · exact ihUOK e h2
                · intro N hinv e he
                  rcases List.mem_append.mp he with h1 | h2
                  · exact hCOK1 N hinv e h1
                  · exact ihCOK N (commit_next_inv ctx k left right left1 t
                      rest1 te acc d left2 tk restk hscan hcls hadv hend N
                      hinv) e h2

/-- With a tag sink that rejects every `begin`, one declarator's commit adds no
tag. -/
theorem commitDeclarator_reject (ctx : CXXParserCtx) (k : CXXTagKind)
    (acc : ScanAcc) (d : DeclMatch) :
    (commitDeclarator {ctx with tagAccept := fun _ => false} k acc d).emits
      = acc.emits := by
  simp [commitDeclarator, cxxTagBegin]

/-- With a tag sink that rejects every `begin`, the declarator loop commits no
tag at all — while its control flow (and hence `bGotVariable`, the scope events
and `pTypeEnd`) is unchanged, because the scanner never branches on the result
of a commit. -/
theorem extractLoop_reject (ctx : CXXParserCtx) (k : CXXTagKind) :
    ∀ (fuel : Nat) (left right : List CXXToken)
      (te : Option (CXXToken × Option CXXToken)) (acc : ScanAcc),
      (extractLoop {ctx with tagAccept := fun _ => false} k fuel left right te
        acc).emits = acc.emits := by
  intro fuel
  induction fuel with
  | zero => intro left right te acc; rfl
  | succ fuel ih =>
    intro left right te acc
    cases hscan : scanForward 0 left right with
    | none =>
      have hstep : extractLoop {ctx with tagAccept := fun _ => false} k
          (fuel + 1) left right te acc = mkScanResult acc te := by
        simp only [extractLoop, hscan]
      rw [hstep]
      rfl
    | some pr =>
      obtain ⟨left1, right1⟩ := pr
      cases right1 with
      | nil =>
        have hstep : extractLoop {ctx with tagAccept := fun _ => false} k
            (fuel + 1) left right te acc = mkScanResult acc te := by
          simp only [extractLoop, hscan]
        rw [hstep]
        rfl
      | cons t rest1 =>
        cases hcls : classifyAndAnchor {ctx with tagAccept := fun _ => false}
            k te left1 t rest1 with
        | none =>
          have hstep : extractLoop {ctx with tagAccept := fun _ => false} k
              (fuel + 1) left right te acc = mkScanResult acc te := by
            simp only [extractLoop, hscan, hcls]
          rw [hstep]
          rfl
        | some d =>
          cases hadv : advanceAfterDeclarator d.left d.right with
          | none =>
            have hstep : extractLoop {ctx with tagAccept := fun _ => false} k
                (fuel + 1) left right te acc
                = mkScanResult (commitDeclarator
                    {ctx with tagAccept := fun _ => false} k acc d)
                  (some d.typeEnd) := by
              simp only [extractLoop, hscan, hcls, hadv]
            rw [hstep]
            exact commitDeclarator_reject ctx k acc d
          | some pr2 =>
            obtain ⟨left2, right2⟩ := pr2
            cases right2 with
            | nil =>
              have hstep : extractLoop {ctx with tagAccept := fun _ => false}
                  k (fuel + 1) left right te acc
                  = mkScanResult (commitDeclarator
                      {ctx with tagAccept := fun _ => false} k acc d)
                    (some d.typeEnd) := by
                simp only [extractLoop, hscan, hcls, hadv]
              rw [hstep]
              exact commitDeclarator_reject ctx k acc d
            | cons tk restk =>
              by_cases hend : isDeclEndType tk.eType = true
              · have hstep : extractLoop
                    {ctx with tagAccept := fun _ => false} k (fuel + 1) left
                    right te acc
                    = mkScanResult (commitDeclarator
                        {ctx with tagAccept := fun _ => false} k acc d)
                      (some d.typeEnd) := by
                  simp only [extractLoop, hscan, hcls, hadv]
                  rw [if_pos hend]
                rw [hstep]
                exact commitDeclarator_reject ctx k acc d
              · have hstep : extractLoop
                    {ctx with tagAccept := fun _ => false} k (fuel + 1) left
                    right te acc
                    = extractLoop {ctx with tagAccept := fun _ => false} k
                      fuel (tk :: left2) restk (some d.typeEnd)
                      (commitDeclarator
                        {ctx with tagAccept := fun _ => false} k acc d) := by
                  simp only [extractLoop, hscan, hcls, hadv]
                  rw [if_neg hend]
                rw [hstep, ih]
                exact commitDeclarator_reject ctx k acc d

/-! ## The Constructor-Argument Heuristic versus the spec's rules -/

theorem ctorParameterSet_cons (lp t tn : CXXToken) (rest : List CXXToken) :
    cxxParserTokenChainLooksLikeConstructorParameterSet (lp :: t :: tn :: rest)
      = (if isConstantType t.eType then true
         else if t.eType = CXXTokenType.Keyword then
           (if isKeywordFollowType tn.eType then false else true)
         else if t.eType = CXXTokenType.Identifier then
           (if isIdentifierFollowType tn.eType then false else true)
         else true) := by
  simp only [cxxParserTokenChainLooksLikeConstructorParameterSet]
  rw [if_neg (by simp)]

/-! ## Helper lemmas for the top-level properties -/

theorem simpleTypeRefOf_ne_none (curLen : Nat) (teTok : CXXToken)
    (tePrev : Option CXXToken) :
    simpleTypeRefOf curLen teTok tePrev ≠ none ↔
      ∃ p, tePrev = some p ∧ curLen = 4
        ∧ teTok.eType = CXXTokenType.Identifier
        ∧ p.eType = CXXTokenType.Keyword
        ∧ isStructLikeKeyword p.eKeyword = true := by
  cases tePrev with
  | none => simp [simpleTypeRefOf]
  | some p =>
    simp only [simpleTypeRefOf]
    split
    · rename_i hcond
      constructor
      · intro _
        exact ⟨p, rfl, hcond.1, hcond.2.1, hcond.2.2.1, hcond.2.2.2⟩
      · intro _
        simp
    · rename_i hcond
      constructor
      · intro hne
        exact absurd rfl hne
      · rintro ⟨p', hp', h4, hid, hkw, hsl⟩
        injection hp' with hp'
        subst hp'
        exact absurd ⟨h4, hid, hkw, hsl⟩ hcond

theorem simpleTypeRefOf_eq_some (curLen : Nat) (teTok p : CXXToken)
    (h4 : curLen = 4) (hid : teTok.eType = CXXTokenType.Identifier)
    (hkw : p.eType = CXXTokenType.Keyword)
    (hsl : isStructLikeKeyword p.eKeyword = true) :
    simpleTypeRefOf curLen teTok (some p) = some (p.word, teTok.word) := by
  simp only [simpleTypeRefOf]
  rw [if_pos ⟨h4, hid, hkw, hsl⟩]

theorem computeIsFileScope_iff (k : CXXTagKind) (s h : Bool) :
    computeIsFileScope k s h = true ↔
      ((k = CXXTagKind.NAMESPACE ∧ s = true ∧ ¬h = true)
        ∨ k = CXXTagKind.FUNCTION
        ∨ (k ≠ CXXTagKind.NAMESPACE ∧ k ≠ CXXTagKind.FUNCTION
            ∧ ¬h = true)) := by
  cases s <;> cases h <;> cases k <;> decide

/-- Every tag the scanner emits satisfies the file-scope formula with the
entry scope kind, carries the typeref formula over its own observation fields,
and satisfies the counting bounds relative to the original chain length. -/
theorem scan_emits_facts (ctx : CXXParserCtx) (stack : List CXXScopeEntry)
    (pChain : List CXXToken) :
    ∀ e ∈ (cxxParserExtractVariableDeclarations ctx stack pChain).emits,
      e.tag.isFileScope
          = computeIsFileScope (cxxScopeGetKind stack) ctx.bSeenStatic
            ctx.bIsHeader
      ∧ e.tag.typeRef = simpleTypeRefOf e.curLen e.typeEnd e.typeEndPrev
      ∧ e.curLen + e.taken = pChain.length
      ∧ (e.typeEndPrev ≠ none → 4 + e.taken ≤ e.curLen) := by
  intro e he
  unfold cxxParserExtractVariableDeclarations at he
  split at he
  · obtain ⟨-, -, -, -, new, hemit, hUOK, hCOK⟩ :=
      extractLoop_master ctx (cxxScopeGetKind stack) (pChain.length + 1) []
        pChain none ⟨stack, [], [], false, 0⟩
    rw [hemit] at he
    simp only [List.nil_append] at he
    obtain ⟨h5, h6⟩ := hUOK e he
    have hinv : loopInv pChain.length [] pChain none
        ⟨stack, [], [], false, 0⟩ := by
      refine ⟨by simp, ?_, fun _ => rfl, Or.inl rfl⟩
      intro p q hpq
      simp at hpq
    obtain ⟨hc1, hc2⟩ := hCOK pChain.length hinv e he
    exact ⟨h5, h6, hc1, hc2⟩
  · simp [mkEmptyScanResult] at he

/-! ## The claims -/

/-- C1: for every input chain, scope stack and context, one call to the
Declaration Scanner leaves the Scope Stack depth exactly as it found it:
replaying the call's push/pop event log against the entry stack never pops an
empty stack and ends in exactly the entry stack (so every entry pushed for a
collected qualifier name is popped, in LIFO order, before the call returns
along any path, including every abort path), and the final stack equals the
entry stack. -/
theorem claim_C1 (ctx : CXXParserCtx) (stack : List CXXScopeEntry)
    (pChain : List CXXToken) :
    replayScopeEvents
        (cxxParserExtractVariableDeclarations ctx stack pChain).events stack
      = some stack
    ∧ (cxxParserExtractVariableDeclarations ctx stack pChain).stack
      = stack := by
  unfold cxxParserExtractVariableDeclarations
  split
  · obtain ⟨h1, h2, -, -, -⟩ := extractLoop_master ctx (cxxScopeGetKind stack)
      (pChain.length + 1) [] pChain none ⟨stack, [], [], false, 0⟩
    exact ⟨h2 stack rfl, h1⟩
  · exact ⟨rfl, rfl⟩

/-- C2 counterexample: the single-content-token form `(x)` is classified TRUE
by the Constructor-Argument Heuristic even though its parenthesized content
has fewer than 3 tokens, refuting the claim that every such content yields
false. -/
theorem claim_C2_counterexample :
    ([tokIdentifier "x"] : List CXXToken).length < 3
    ∧ cxxParserTokenChainLooksLikeConstructorParameterSet
        (parenthesizedChain [tokIdentifier "x"]) = true :=
  ⟨by decide, rfl⟩

/-- C2 (amended): the fewer-than-3-token threshold of the
Constructor-Argument Heuristic counts the chain INCLUDING its two parenthesis
delimiter tokens: every chain of fewer than 3 tokens is classified false (in
particular the empty form `()`), while the single-content-token form `(x)`
already has 3 tokens and is classified by the remaining rules instead. -/
theorem claim_C2 (pChain : List CXXToken) (h : pChain.length < 3) :
    cxxParserTokenChainLooksLikeConstructorParameterSet pChain = false := by
  simp only [cxxParserTokenChainLooksLikeConstructorParameterSet]
  rw [if_pos h]

/-- C2 witness: the empty form `()` is a 2-token chain and is classified
false. -/
theorem claim_C2_witness :
    (parenthesizedChain []).length < 3
    ∧ cxxParserTokenChainLooksLikeConstructorParameterSet
        (parenthesizedChain []) = false :=
  ⟨by decide, claim_C2 (parenthesizedChain []) (by decide)⟩

/-- C3 counterexample: on the chain `A :: B :: value = 0 ;` the Declaration
Scanner returns FALSE — the qualifier unwind runs off the front of the chain
before finding a type — and emits no tag and performs no scope push or pop,
refuting the claimed recognition of `value`. -/
theorem claim_C3_counterexample :
    (cxxParserExtractVariableDeclarations ctxDefault []
        chainScenarioF).gotVariable = false
    ∧ (cxxParserExtractVariableDeclarations ctxDefault []
        chainScenarioF).emits = []
    ∧ (cxxParserExtractVariableDeclarations ctxDefault []
        chainScenarioF).events = [] :=
  ⟨rfl, rfl, rfl⟩

/-- C3 (amended): the chain `A :: B :: value = 0 ;` is rejected (no type
precedes the outermost qualifier `A`, so the scanner returns false with no tag
and no scope traffic); with a leading type, on `int A :: B :: value = 0 ;`,
the scanner returns true, recognizes `value` as the one variable, pushes the
two scope qualifiers `A` then `B` and pops them in LIFO order, and applies the
type-end resolution to the token before `A` (the `int` keyword). -/
theorem claim_C3 :
    (cxxParserExtractVariableDeclarations ctxDefault []
        chainScenarioF).gotVariable = false
    ∧ (cxxParserExtractVariableDeclarations ctxDefault []
        chainScenarioFTyped).gotVariable = true
    ∧ (cxxParserExtractVariableDeclarations ctxDefault []
        chainScenarioFTyped).emits.map (fun e => e.tag.name) = ["value"]
    ∧ (cxxParserExtractVariableDeclarations ctxDefault []
        chainScenarioFTyped).events
      = [ScopeEvent.push (scopeEntryForQualifier (tokIdentifier "A")),
         ScopeEvent.push (scopeEntryForQualifier (tokIdentifier "B")),
         ScopeEvent.pop, ScopeEvent.pop]
    ∧ (cxxParserExtractVariableDeclarations ctxDefault []
        chainScenarioFTyped).typeEnd
      = some (tokKeyword "int" CXXKeyword.kwOther, none) :=
  ⟨rfl, rfl, rfl, rfl, rfl⟩

/-- C4: the success flag `bGotVariable` is monotone — whenever the accumulated
flag is already true, every outcome of the declarator loop (each abort path
included) still reports true — and committed tags are never retracted: for
either value of the flag, the loop's final tag list extends the accumulated
tag list. -/
theorem claim_C4 (ctx : CXXParserCtx) (k : CXXTagKind) (fuel : Nat)
    (left right : List CXXToken) (te : Option (CXXToken × Option CXXToken))
    (st : List CXXScopeEntry) (ev : List ScopeEvent) (em : List EmitRec)
    (tkn : Nat) :
    (extractLoop ctx k fuel left right te
        ⟨st, ev, em, true, tkn⟩).gotVariable = true
    ∧ ∀ g : Bool, ∃ new,
        (extractLoop ctx k fuel left right te ⟨st, ev, em, g, tkn⟩).emits
          = em ++ new := by
  constructor
  · exact (extractLoop_master ctx k fuel left right te
      ⟨st, ev, em, true, tkn⟩).2.2.1 rfl
  · intro g
    obtain ⟨-, -, -, -, new, hemit, -, -⟩ :=
      extractLoop_master ctx k fuel left right te ⟨st, ev, em, g, tkn⟩
    exact ⟨new, hemit⟩

/-- C5: `pTypeEnd`, once resolved, is carried unchanged through every further
declarator of the same call; on `int a , b , c ;` the scanner returns true and
emits the three variable tags `a`, `b`, `c`, each recorded with the same
resolved type boundary (the `int` keyword); and when the first declarator's
pre-type boundary token is not one of identifier, keyword, `>`, `*`, `&`
(here: a number), the call aborts with no tag. -/
theorem claim_C5 :
    (∀ (ctx : CXXParserCtx) (k : CXXTagKind) (fuel : Nat)
      (left right : List CXXToken) (p : CXXToken × Option CXXToken)
      (acc : ScanAcc),
      (extractLoop ctx k fuel left right (some p) acc).typeEnd = some p)
    ∧ (cxxParserExtractVariableDeclarations ctxDefault []
        chainIntABC).gotVariable = true
    ∧ (cxxParserExtractVariableDeclarations ctxDefault []
        chainIntABC).emits.map (fun e => e.tag.name) = ["a", "b", "c"]
    ∧ (cxxParserExtractVariableDeclarations ctxDefault []
        chainIntABC).emits.map (fun e => e.typeEnd)
      = [tokKeyword "int" CXXKeyword.kwOther,
         tokKeyword "int" CXXKeyword.kwOther,
         tokKeyword "int" CXXKeyword.kwOther]
    ∧ (cxxParserExtractVariableDeclarations ctxDefault [] chainIntABC).typeEnd
      = some (tokKeyword "int" CXXKeyword.kwOther, none)
    ∧ (cxxParserExtractVariableDeclarations ctxDefault []
        chainBadPreType).gotVariable = false
    ∧ (cxxParserExtractVariableDeclarations ctxDefault []
        chainBadPreType).emits = [] := by
  refine ⟨?_, rfl, rfl, rfl, rfl, rfl, rfl⟩
  intro ctx k fuel left right p acc
  exact (extractLoop_master ctx k fuel left right (some p) acc).2.2.2.1 p rfl

/-- C6: for every parenthesized content of at least 3 tokens, the
Constructor-Argument Heuristic returns exactly what the spec's rules 2-5
state: true on a leading numeric/string/character constant; false on a keyword
immediately followed by a keyword, star, ampersand, multi-ampersand or
identifier; false on an identifier immediately followed by a keyword or
identifier; true in every other case. -/
theorem claim_C6 (content : List CXXToken) (h : 3 ≤ content.length) :
    cxxParserTokenChainLooksLikeConstructorParameterSet
        (parenthesizedChain content)
      = ctorParameterSetSpecRules content := by
  cases content with
  | nil => simp at h
  | cons a c1 =>
    cases c1 with
    | nil => simp at h
    | cons b c2 =>
      cases c2 with
      | nil => simp at h
      | cons c rest =>
        have hpc : parenthesizedChain (a :: b :: c :: rest)
            = tokOpeningParenthesis :: a :: b
              :: (c :: (rest ++ [tokClosingParenthesis])) := by
          simp [parenthesizedChain]
        rw [hpc, ctorParameterSet_cons]
        simp only [ctorParameterSetSpecRules]
        by_cases h1 : isConstantType a.eType = true
        · simp [h1]
        · by_cases h2 : a.eType = CXXTokenType.Keyword
          · by_cases h3 : isKeywordFollowType b.eType = true
            · simp [h1, h2, h3]
            · simp [h1, h2, h3]
          · by_cases h4 : a.eType = CXXTokenType.Identifier
            · by_cases h5 : isIdentifierFollowType b.eType = true
              · simp [h1, h2, h4, h5]
              · simp [h1, h2, h4, h5]
            · simp [h1, h2, h4]

/-- C6 witness: on the content `x y z` (three identifiers) the heuristic and
the spec's rules agree (both classify it as not a constructor argument
list). -/
theorem claim_C6_witness :
    3 ≤ ([tokIdentifier "x", tokIdentifier "y", tokIdentifier "z"]
        : List CXXToken).length
    ∧ cxxParserTokenChainLooksLikeConstructorParameterSet
        (parenthesizedChain
          [tokIdentifier "x", tokIdentifier "y", tokIdentifier "z"])
      = ctorParameterSetSpecRules
          [tokIdentifier "x", tokIdentifier "y", tokIdentifier "z"] :=
  ⟨by decide,
    claim_C6 [tokIdentifier "x", tokIdentifier "y", tokIdentifier "z"]
      (by decide)⟩

/-- C7: a typeref is attached to an emitted tag iff the whole original chain
has exactly 4 tokens and the resolved type end is an identifier whose
immediately preceding token is a struct/union/class/enum keyword, in which
case the reference is the pair (keyword text, type identifier text); in
particular `struct Foo bar ;` yields one tag `bar` with typeRef
(`struct`, `Foo`) and `int x ;` yields one tag `x` with no typeRef. -/
theorem claim_C7 :
    (∀ (ctx : CXXParserCtx) (stack : List CXXScopeEntry)
      (pChain : List CXXToken),
      ∀ e ∈ (cxxParserExtractVariableDeclarations ctx stack pChain).emits,
        (e.tag.typeRef ≠ none ↔
          (pChain.length = 4
            ∧ e.typeEnd.eType = CXXTokenType.Identifier
            ∧ ∃ p, e.typeEndPrev = some p
                ∧ p.eType = CXXTokenType.Keyword
                ∧ isStructLikeKeyword p.eKeyword = true))
        ∧ (∀ p, e.typeEndPrev = some p → pChain.length = 4 →
            e.typeEnd.eType = CXXTokenType.Identifier →
            p.eType = CXXTokenType.Keyword →
            isStructLikeKeyword p.eKeyword = true →
            e.tag.typeRef = some (p.word, e.typeEnd.word)))
    ∧ (cxxParserExtractVariableDeclarations ctxDefault []
        chainStructFooBar).emits.map (fun e => (e.tag.name, e.tag.typeRef))
      = [("bar", some ("struct", "Foo"))]
    ∧ (cxxParserExtractVariableDeclarations ctxDefault []
        chainIntX).emits.map (fun e => (e.tag.name, e.tag.typeRef))
      = [("x", none)] := by
  refine ⟨?_, rfl, rfl⟩
  intro ctx stack pChain e he
  obtain ⟨-, htr, hcnt, hbound⟩ := scan_emits_facts ctx stack pChain e he
  constructor
  · rw [htr, simpleTypeRefOf_ne_none]
    constructor
    · rintro ⟨p, hp, h4, hid, hkw, hsl⟩
      have hb := hbound (by rw [hp]; simp)
      refine ⟨by omega, hid, p, hp, hkw, hsl⟩
    · rintro ⟨hlen, hid, p, hp, hkw, hsl⟩
      have hb := hbound (by rw [hp]; simp)
      exact ⟨p, hp, by omega, hid, hkw, hsl⟩
  · intro p hp hlen hid hkw hsl
    have hb := hbound (by rw [hp]; simp)
    have h4 : e.curLen = 4 := by omega
    rw [htr, hp]
    exact simpleTypeRefOf_eq_some e.curLen e.typeEnd p h4 hid hkw hsl

/-- C7 witness: the tag emitted on `struct Foo bar ;` instantiates the typeref
characterization. -/
theorem claim_C7_witness :
    emitRecStructFooBar ∈ (cxxParserExtractVariableDeclarations ctxDefault []
        chainStructFooBar).emits
    ∧ (emitRecStructFooBar.tag.typeRef ≠ none ↔
        (chainStructFooBar.length = 4
          ∧ emitRecStructFooBar.typeEnd.eType = CXXTokenType.Identifier
          ∧ ∃ p, emitRecStructFooBar.typeEndPrev = some p
              ∧ p.eType = CXXTokenType.Keyword
              ∧ isStructLikeKeyword p.eKeyword = true)) := by
  have hmem : emitRecStructFooBar ∈ (cxxParserExtractVariableDeclarations
      ctxDefault [] chainStructFooBar).emits := by
    show emitRecStructFooBar ∈ [emitRecStructFooBar]
    exact List.mem_singleton.mpr rfl
  exact ⟨hmem, (claim_C7.1 ctxDefault [] chainStructFooBar
    emitRecStructFooBar hmem).1⟩

/-- C8: for every chain that is empty, or whose first token is neither an
identifier nor a keyword, the Declaration Scanner returns false immediately,
emitting no tag and performing no scope push or pop, and leaving the scope
stack untouched. -/
theorem claim_C8 (ctx : CXXParserCtx) (stack : List CXXScopeEntry)
    (pChain : List CXXToken)
    (h : pChain = [] ∨ ∃ t rest, pChain = t :: rest
        ∧ t.eType ≠ CXXTokenType.Identifier
        ∧ t.eType ≠ CXXTokenType.Keyword) :
    (cxxParserExtractVariableDeclarations ctx stack pChain).gotVariable = false
    ∧ (cxxParserExtractVariableDeclarations ctx stack pChain).emits = []
    ∧ (cxxParserExtractVariableDeclarations ctx stack pChain).events = []
    ∧ (cxxParserExtractVariableDeclarations ctx stack pChain).stack
      = stack := by
  have hstart : chainStartsWithIdentifierOrKeyword pChain = false := by
    rcases h with rfl | ⟨t, rest, rfl, h1, h2⟩
    · rfl
    · obtain ⟨e, w, kw, c⟩ := t
      cases e <;>
        simp_all [chainStartsWithIdentifierOrKeyword, CXXToken.eType]
  unfold cxxParserExtractVariableDeclarations
  rw [if_neg (by rw [hstart]; simp)]
  exact ⟨rfl, rfl, rfl, rfl⟩

/-- C8 witness: a chain starting with a number token is rejected with no tag
and no scope traffic. -/
theorem claim_C8_witness :
    (([tokNumber "0"] : List CXXToken) = []
      ∨ ∃ t rest, ([tokNumber "0"] : List CXXToken) = t :: rest
          ∧ t.eType ≠ CXXTokenType.Identifier
          ∧ t.eType ≠ CXXTokenType.Keyword)
    ∧ (cxxParserExtractVariableDeclarations ctxDefault []
        [tokNumber "0"]).gotVariable = false
    ∧ (cxxParserExtractVariableDeclarations ctxDefault []
        [tokNumber "0"]).emits = []
    ∧ (cxxParserExtractVariableDeclarations ctxDefault []
        [tokNumber "0"]).events = []
    ∧ (cxxParserExtractVariableDeclarations ctxDefault []
        [tokNumber "0"]).stack = [] :=
  have hh : ([tokNumber "0"] : List CXXToken) = []
      ∨ ∃ t rest, ([tokNumber "0"] : List CXXToken) = t :: rest
          ∧ t.eType ≠ CXXTokenType.Identifier
          ∧ t.eType ≠ CXXTokenType.Keyword :=
    Or.inr ⟨tokNumber "0", [], rfl, by decide, by decide⟩
  ⟨hh, claim_C8 ctxDefault [] [tokNumber "0"] hh⟩

/-- C9: every tag emitted by the Declaration Scanner has `isFileScope` true
exactly when: the enclosing scope kind queried at scanner entry is
namespace-level and the static-seen flag is set and the translation unit is
not a header; or that scope kind is function-local; or it is neither
namespace-level nor function-local and the translation unit is not a
header. -/
theorem claim_C9 (ctx : CXXParserCtx) (stack : List CXXScopeEntry)
    (pChain : List CXXToken) :
    ∀ e ∈ (cxxParserExtractVariableDeclarations ctx stack pChain).emits,
      (e.tag.isFileScope = true ↔
        ((cxxScopeGetKind stack = CXXTagKind.NAMESPACE
            ∧ ctx.bSeenStatic = true ∧ ¬ctx.bIsHeader = true)
          ∨ cxxScopeGetKind stack = CXXTagKind.FUNCTION
          ∨ (cxxScopeGetKind stack ≠ CXXTagKind.NAMESPACE
              ∧ cxxScopeGetKind stack ≠ CXXTagKind.FUNCTION
              ∧ ¬ctx.bIsHeader = true))) := by
  intro e he
  obtain ⟨hfs, -, -, -⟩ := scan_emits_facts ctx stack pChain e he
  rw [hfs]
  exact computeIsFileScope_iff (cxxScopeGetKind stack) ctx.bSeenStatic
    ctx.bIsHeader

/-- C9 witness: the tag emitted on `int x ;` inside a function scope is
file-scope (locals are always hidden). -/
theorem claim_C9_witness :
    emitRecIntXLocal ∈ (cxxParserExtractVariableDeclarations ctxDefault
        [scopeEntryFunction] chainIntX).emits
    ∧ (emitRecIntXLocal.tag.isFileScope = true ↔
        ((cxxScopeGetKind [scopeEntryFunction] = CXXTagKind.NAMESPACE
            ∧ ctxDefault.bSeenStatic = true ∧ ¬ctxDefault.bIsHeader = true)
          ∨ cxxScopeGetKind [scopeEntryFunction] = CXXTagKind.FUNCTION
          ∨ (cxxScopeGetKind [scopeEntryFunction] ≠ CXXTagKind.NAMESPACE
              ∧ cxxScopeGetKind [scopeEntryFunction] ≠ CXXTagKind.FUNCTION
              ∧ ¬ctxDefault.bIsHeader = true))) := by
  have hmem : emitRecIntXLocal ∈ (cxxParserExtractVariableDeclarations
      ctxDefault [scopeEntryFunction] chainIntX).emits := by
    show emitRecIntXLocal ∈ [emitRecIntXLocal]
    exact List.mem_singleton.mpr rfl
  exact ⟨hmem,
    claim_C9 ctxDefault [scopeEntryFunction] chainIntX emitRecIntXLocal hmem⟩

/-- C10: when the tag sink's begin operation returns no tag, the Declaration
Scanner commits nothing (for every chain and stack, a sink rejecting every
begin yields an empty tag list) while still setting `bGotVariable` and
continuing to scan: on `int a , B :: b ;` with a rejecting sink the scanner
returns true with zero tags, and the scope events of the second declarator's
qualifier show that scanning continued past the first declarator. -/
theorem claim_C10 :
    (∀ (ctx : CXXParserCtx) (name : String) (kind : CXXTagKind)
        (anchor : CXXToken),
      cxxTagBegin {ctx with tagAccept := fun _ => false} name kind anchor
        = none)
    ∧ (∀ (ctx : CXXParserCtx) (stack : List CXXScopeEntry)
        (pChain : List CXXToken),
      (cxxParserExtractVariableDeclarations
          {ctx with tagAccept := fun _ => false} stack pChain).emits = [])
    ∧ (cxxParserExtractVariableDeclarations
        {ctxDefault with tagAccept := fun _ => false} []
        chainIntAQualB).gotVariable = true
    ∧ (cxxParserExtractVariableDeclarations
        {ctxDefault with tagAccept := fun _ => false} []
        chainIntAQualB).emits = []
    ∧ (cxxParserExtractVariableDeclarations
        {ctxDefault with tagAccept := fun _ => false} []
        chainIntAQualB).events
      = [ScopeEvent.push (scopeEntryForQualifier (tokIdentifier "B")),
         ScopeEvent.pop] := by
  refine ⟨fun ctx name kind anchor => rfl, ?_, rfl, rfl, rfl⟩
  intro ctx stack pChain
  unfold cxxParserExtractVariableDeclarations
  split
  · exact extractLoop_reject ctx (cxxScopeGetKind stack) (pChain.length + 1)
      [] pChain none ⟨stack, [], [], false, 0⟩
  · rfl
